import Mathlib

/-!
Verification of the janis-runner task orchestration core.

This file shallowly embeds the orchestration code of the repository:
  - `shepherd/management/taskmanager.py` (TaskManager: the progress-record
    state machine, output staging, metadata archival),
  - `janis_assistant/engines/shell/main.py` (ShellLogger: the local-process
    log watcher; Shell.terminate_task).

Python strings are modelled as Lean `String`; the Python string operations
used by the code (`split`, `lower`, `startswith`, substring containment via
`in`) are re-implemented below over `String.data` so that all concrete
claims evaluate inside the kernel.  Stateful code is embedded as explicit
state passing over a `World` record; exceptions become an explicit
`StepOut.raised` outcome carrying the state at raise time.
-/

/-! ## Python string primitives -/

/-- Python `str.split(c)` on a single-character separator, over char lists.
`splitCharList c []` is `[[]]`, matching Python where `"".split(".") = [""]`. -/
def splitCharList (c : Char) : List Char → List (List Char)
  | [] => [[]]
  | x :: xs =>
    let r := splitCharList c xs
    if x = c then [] :: r
    else
      match r with
      | y :: ys => (x :: y) :: ys
      | [] => [[x]]

/-- Python `s.split(".")`. -/
def pySplitDot (s : String) : List String :=
  (splitCharList '.' s.data).map (fun l => String.mk l)

/-- Python `s.lower()` (ASCII-sufficient for the fixed keyword set). -/
def pyLower (s : String) : String :=
  String.mk (s.data.map Char.toLower)

/-- Python `s.startswith(p)`. -/
def pyStartsWith (s p : String) : Bool :=
  p.data.isPrefixOf s.data

/-- Contiguous-sublist check over lists, used for Python `needle in haystack`. -/
def listContainsSub (needle : List Char) : List Char → Bool
  | [] => needle.isEmpty
  | x :: xs => needle.isPrefixOf (x :: xs) || listContainsSub needle xs

/-- Python `needle in haystack` for strings. -/
def pyContains (haystack needle : String) : Bool :=
  listContainsSub needle.data haystack.data

/-- Python `s.endswith(p)`. -/
def pyEndsWith (s p : String) : Bool :=
  p.data.isSuffixOf s.data

/-! ## Task status (shepherd.data.schema.TaskStatus, interface level)

The schema module itself is not part of the orchestration core; the status
enumeration and its terminal set are fixed by the spec (section 3): queued and
processing are non-terminal; completed, failed and aborted are terminal
(`TaskStatus.FINAL_STATES()`). -/

inductive TaskStatus where
  | queued
  | processing
  | completed
  | failed
  | aborted
  deriving DecidableEq, Repr

/-- Embeds `TaskStatus.FINAL_STATES()`. -/
def TaskStatus.final_states : List TaskStatus :=
  [TaskStatus.completed, TaskStatus.failed, TaskStatus.aborted]

/-! ## Progress record keys (shepherd.management.enums, as used by taskmanager.py) -/

inductive ProgressKeys where
  | saveWorkflow
  | submitWorkflow
  | workflowMovedToFinalState
  | savedMetadata
  | copiedOutputs
  | savedLogs
  deriving DecidableEq, Repr

inductive InfoKeys where
  | taskId
  | status
  | validating
  | engineId
  | environment
  | engine_tid
  deriving DecidableEq, Repr

inductive InfoVal where
  | str (s : String)
  | bool (b : Bool)
  | status (st : TaskStatus)
  deriving DecidableEq, Repr

/-! ## Output values

`TaskManager.copy_outputs_if_required` dispatches on the runtime shape of each
engine output: a Python `list`, a `CromwellFile` (a location plus secondary
files, of which only the `.location` strings are read), a plain `str`, or
anything else (`other`, carrying the Python type name for the error message). -/

inductive OutputValue where
  | str (s : String)
  | arr (xs : List OutputValue)
  | cromwell (location : String) (secondary_files : List String)
  | other (typename : String)
  deriving Repr

/-- Modelled from the spec: `get_extension` (imported from `shepherd.utils`,
whose source is not in the repository snapshot) returns the file-extension of
a source location when it has one (append the file-extension of the source to the
destination filename if the source has one). -/
def get_extension (fn : String) : Option String :=
  match pySplitDot fn with
  | [] => none
  | [_] => none
  | parts => parts.getLast?

/-- The `isinstance(source, str)` branch of `TaskManager.copy_output`:
`ext = get_extension(source); extwdot = ('.' + ext) if ext else '';
filescheme.cp_from(source, output_dir + filename + extwdot, None)`.
A copy operation is recorded as a (source, destination) pair. -/
def copy_scalar (output_dir filename source : String) : List (String × String) :=
  let extwdot :=
    match get_extension source with
    | some e => if e.isEmpty then "" else "." ++ e
    | none => ""
  [(source, output_dir ++ filename ++ extwdot)]

mutual

/-- Embeds `TaskManager.copy_output` (static).  The `CromwellFile` branch inlines
`copy_cromwell_output`, whose recursive calls always pass a `str` and hence
always land in the scalar branch.  Note the Python function has no `else`
branch: an unrecognized shape silently performs no copy. -/
def copy_output (output_dir filename : String) : OutputValue → List (String × String)
  | OutputValue.str s => copy_scalar output_dir filename s
  | OutputValue.arr xs => copy_sharded_from output_dir filename 0 xs
  | OutputValue.cromwell loc secs =>
      copy_scalar output_dir filename loc
        ++ secs.flatMap (fun sec => copy_scalar output_dir filename sec)
  | OutputValue.other _ => []

/-- Embeds `TaskManager.copy_sharded_outputs`: `for counter in range(len(outputs)):
copy_output(..., filename + f"-shard-{counter}", outputs[counter])`,
unrolled with an explicit running counter. -/
def copy_sharded_from (output_dir filename : String) (counter : Nat) :
    List OutputValue → List (String × String)
  | [] => []
  | o :: rest =>
      copy_output output_dir (filename ++ "-shard-" ++ toString counter) o
        ++ copy_sharded_from output_dir filename (counter + 1) rest

end

/-- Embeds `TaskManager.copy_sharded_outputs` with the counter starting at 0. -/
def copy_sharded_outputs (output_dir filename : String) (outputs : List OutputValue) :
    List (String × String) :=
  copy_sharded_from output_dir filename 0 outputs

/-- Embeds `TaskManager.copy_cromwell_output`: copy the primary location, then every
secondary-file location, all under the same output name. -/
def copy_cromwell_output (output_dir filename location : String)
    (secondary_files : List String) : List (String × String) :=
  copy_scalar output_dir filename location
    ++ secondary_files.flatMap (fun sec => copy_scalar output_dir filename sec)

/-- The lambda in `copy_outputs_if_required`:
`lambda o: is_validating and o.split(".")[-1].startswith("validated_")`
(applied to the output name). -/
def output_is_validating (is_validating : Bool) (o : String) : Bool :=
  is_validating && pyStartsWith ((pySplitDot o).getLastD "") "validated_"

/-! ## The orchestrator world

One record holds the persistent progress database (step flags plus
informational key/value pairs), the filesystem effects performed so far
(written files, transport copies), invocation counters for the engine side
effects, and the constant engine/environment configuration the TaskManager
was constructed with.  The engine collaborators (Cromwell / AsyncTask,
DatabaseManager, FileScheme) live outside the three orchestration-core
source files; they are represented at their interface boundary exactly as
`taskmanager.py` consumes them: `start_from_paths` returns `engineTid`,
`metadata` reports `engineStatus`, `outputs_task` returns `engineOutputs`,
`raw_metadata(...).meta` is `rawMeta`, and `FileScheme.cp_from` records a
(source, destination) pair in `copies`. -/

structure World where
  progress : List ProgressKeys
  info : List (InfoKeys × InfoVal)
  startCount : Nat
  translateCount : Nat
  fetchCount : Nat
  metaFetches : Nat
  files : List (String × String)
  copies : List (String × String)
  path : String
  tid : String
  engineTid : String
  engineId : String
  envId : String
  engineIsCromwell : Bool
  engineStatus : TaskStatus
  engineOutputs : List (String × OutputValue)
  rawMeta : String
  validatingReq : Bool
  deriving Repr

/-- Embeds `DatabaseManager.progress_has_completed`. -/
def progress_has_completed (w : World) (k : ProgressKeys) : Bool :=
  w.progress.contains k

/-- Embeds `DatabaseManager.progress_mark_completed` (idempotent set-true). -/
def progress_mark_completed (w : World) (k : ProgressKeys) : World :=
  { w with progress := k :: w.progress }

/-- Embeds `DatabaseManager.add_meta_info` (point upsert; newest entry wins on lookup). -/
def add_meta_info (w : World) (k : InfoKeys) (v : InfoVal) : World :=
  { w with info := (k, v) :: w.info }

/-- Embeds `DatabaseManager.get_meta_info`. -/
def get_meta_info (w : World) (k : InfoKeys) : Option InfoVal :=
  (w.info.find? (fun p => p.1 = k)).map (fun p => p.2)

/-- Embeds `TaskManager.get_task_path`: the output root with a trailing slash. -/
def task_path (w : World) : String :=
  w.path ++ (if pyEndsWith w.path "/" then "" else "/")

/-- Python truthiness of the stored `InfoKeys.validating` value, as read by
`bool(self.database.get_meta_info(InfoKeys.validating))`. -/
def is_validating_info (w : World) : Bool :=
  match get_meta_info w InfoKeys.validating with
  | some (InfoVal.bool b) => b
  | some (InfoVal.str s) => !s.isEmpty
  | some (InfoVal.status _) => true
  | none => false

/-- Outcome of one orchestrator step: normal return, a raised exception
(carrying the state at raise time and the message), or a poll loop that
never observes a terminal status (the Python `while` in `wait_if_required`
spins forever; the engine status is constant in this model, so the loop
exits on its first poll or not at all). -/
inductive StepOut where
  | ok (w : World)
  | raised (w : World) (msg : String)
  | hung (w : World)

/-- The state carried by a step outcome (the persistent state at return,
raise, or hang time). -/
def StepOut.world : StepOut → World
  | StepOut.ok w => w
  | StepOut.raised w _ => w
  | StepOut.hung w => w

def StepOut.isOk : StepOut → Bool
  | StepOut.ok _ => true
  | _ => false

def StepOut.isRaised : StepOut → Bool
  | StepOut.raised _ _ => true
  | _ => false


/-- The `add_meta_infos` prologue of `TaskManager.from_janis`. -/
def fj_add_meta (w : World) : World :=
  let w := add_meta_info w InfoKeys.taskId (InfoVal.str w.tid)
  let w := add_meta_info w InfoKeys.status (InfoVal.status TaskStatus.processing)
  let w := add_meta_info w InfoKeys.validating (InfoVal.bool w.validatingReq)
  let w := add_meta_info w InfoKeys.engineId (InfoVal.str w.engineId)
  add_meta_info w InfoKeys.environment (InfoVal.str w.envId)

/-- Embeds `TaskManager.prepare_and_output_workflow_to_evaluate_if_required`:
skip when `saveWorkflow` is completed; otherwise translate the workflow to
disk (twice when validation requirements are present, for the wrapped
variant) and only then mark `saveWorkflow`. -/
def prepare_workflow_if_required (w : World) : World :=
  if progress_has_completed w ProgressKeys.saveWorkflow then w
  else
    let w := { w with translateCount := w.translateCount + 1 }
    let w := if w.validatingReq then { w with translateCount := w.translateCount + 1 } else w
    progress_mark_completed w ProgressKeys.saveWorkflow

/-- Embeds `TaskManager.submit_workflow_if_required`: skip when `submitWorkflow` is
completed; otherwise call `engine.start_from_paths` (counted), persist the
returned engine task id, and only then mark `submitWorkflow`. -/
def submit_workflow_if_required (w : World) : World :=
  if progress_has_completed w ProgressKeys.submitWorkflow then w
  else
    let w := { w with startCount := w.startCount + 1 }
    let w := add_meta_info w InfoKeys.engine_tid (InfoVal.str w.engineTid)
    progress_mark_completed w ProgressKeys.submitWorkflow

/-- Embeds `TaskManager.wait_if_required`: when `workflowMovedToFinalState` is
already completed, fetch and print metadata once and skip; otherwise poll
`self.metadata()` until the aggregate status is terminal, then mark the
step.  The engine status is constant here, so a non-terminal status means
the Python loop never exits (`StepOut.hung`, after its first poll). -/
def wait_if_required (w : World) : StepOut :=
  if progress_has_completed w ProgressKeys.workflowMovedToFinalState then
    StepOut.ok { w with metaFetches := w.metaFetches + 1 }
  else if TaskStatus.final_states.contains w.engineStatus then
    StepOut.ok (progress_mark_completed
      { w with metaFetches := w.metaFetches + 1 } ProgressKeys.workflowMovedToFinalState)
  else
    StepOut.hung { w with metaFetches := w.metaFetches + 1 }

/-- Embeds `TaskManager.save_metadata_if_required`: skip when `savedMetadata` is
completed; for a Cromwell engine dump `raw_metadata(...).meta` to
`metadata/metadata.json` and then mark the step; for any other engine raise
(the mark after the raise is unreachable). -/
def save_metadata_if_required (w : World) : StepOut :=
  if progress_has_completed w ProgressKeys.savedMetadata then StepOut.ok w
  else if w.engineIsCromwell then
    let w := { w with
      files := w.files ++ [(task_path w ++ "metadata/metadata.json", w.rawMeta)] }
    StepOut.ok (progress_mark_completed w ProgressKeys.savedMetadata)
  else
    StepOut.raised w ("Dont know how to save metadata for engine " ++ w.engineId)

/-- The per-output dispatch loop of `TaskManager.copy_outputs_if_required`,
returning the copies performed in order together with the message of the
exception raised at the first output of unrecognized shape, if any (copies
for outputs preceding the bad one have already happened when it raises). -/
def route_outputs (isv : Bool) (outdir valdir : String) :
    List (String × OutputValue) → List (String × String) × Option String
  | [] => ([], none)
  | (outname, o) :: rest =>
    let od := if output_is_validating isv outname then valdir else outdir
    match o with
    | OutputValue.str s =>
        let r := route_outputs isv outdir valdir rest
        (copy_output od outname (OutputValue.str s) ++ r.1, r.2)
    | OutputValue.arr xs =>
        let r := route_outputs isv outdir valdir rest
        (copy_sharded_outputs od outname xs ++ r.1, r.2)
    | OutputValue.cromwell loc secs =>
        let r := route_outputs isv outdir valdir rest
        (copy_cromwell_output od outname loc secs ++ r.1, r.2)
    | OutputValue.other typename =>
        ([], some ("Dont know how to handle output with type: " ++ typename))

/-- Embeds `TaskManager.copy_outputs_if_required`: skip when `copiedOutputs` is
completed; otherwise fetch the outputs mapping (counted).  An empty mapping
returns early WITHOUT marking the step (`if not outputs: return`).  Otherwise
each named output is routed to `validation/` or `outputs/` and copied; an
unrecognized top-level shape raises after the copies made so far; on normal
completion `copiedOutputs` is marked. -/
def copy_outputs_if_required (w : World) : StepOut :=
  if progress_has_completed w ProgressKeys.copiedOutputs then StepOut.ok w
  else
    let w2 := { w with fetchCount := w.fetchCount + 1 }
    if w.engineOutputs.isEmpty then StepOut.ok w2
    else
      match route_outputs (is_validating_info w) (task_path w ++ "outputs/")
          (task_path w ++ "validation/") w.engineOutputs with
      | (cs, some msg) => StepOut.raised { w2 with copies := w2.copies ++ cs } msg
      | (cs, none) =>
          StepOut.ok (progress_mark_completed
            { w2 with copies := w2.copies ++ cs } ProgressKeys.copiedOutputs)

/-- Embeds `TaskManager.copy_logs_if_required`: the guard is inverted relative to
every other step method (`if not ... savedLogs: return`), so when the step
is NOT completed it returns immediately; when it is completed it fetches
metadata into a local that is then discarded.  No log is copied and
`savedLogs` is never marked on either path. -/
def copy_logs_if_required (w : World) : World :=
  if !progress_has_completed w ProgressKeys.savedLogs then w
  else { w with metaFetches := w.metaFetches + 1 }

/-! ## Entry-point runs with crash cut-offs

`TaskManager.from_janis` performs: add meta infos, prepare, submit, then
`resume_if_possible`, which guards on `submitWorkflow` being completed and
then runs wait, save-metadata, copy-outputs in order.  A crash (or an
exception, or a never-terminating poll) leaves the persistent state as of
the last step that ran; `fuel` counts how many steps of the sequence run
before the orchestrator stops, so every crash/restart interleaving is a
composition of these two functions. -/

/-- The tail of `resume_if_possible` after save-metadata returned: run
copy-outputs when fuel remains.  A raise ends the run at the state it
produced, which is exactly `StepOut.world`. -/
def resume_after_save (g : Nat) (w2 : World) : World :=
  match g with
  | 0 => w2
  | _ + 1 => (copy_outputs_if_required w2).world

/-- The tail of `resume_if_possible` after wait returned: run save-metadata
(stopping at a raise) and then the copy tail. -/
def resume_after_wait (f : Nat) (w1 : World) : World :=
  match f with
  | 0 => w1
  | g + 1 =>
    match save_metadata_if_required w1 with
    | StepOut.ok w2 => resume_after_save g w2
    | StepOut.raised w2 _ => w2
    | StepOut.hung w2 => w2

/-- Embeds `TaskManager.resume_if_possible`, stopped after `fuel` of its three
steps (wait, save-metadata, copy-outputs).  A raised exception or a hung
poll ends the run at the state it produced. -/
def run_resume (fuel : Nat) (w : World) : World :=
  if progress_has_completed w ProgressKeys.submitWorkflow then
    match fuel with
    | 0 => w
    | f + 1 =>
      match wait_if_required w with
      | StepOut.ok w1 => resume_after_wait f w1
      | StepOut.raised w1 _ => w1
      | StepOut.hung w1 => w1
  else w

/-- Embeds `TaskManager.from_janis`, stopped after `fuel` steps (meta prologue,
prepare, submit, then the resume steps).  `fuel = 6` is the full
prepare → submit → await → save-metadata → copy-outputs sequence. -/
def from_janis_run (fuel : Nat) (w : World) : World :=
  match fuel with
  | 0 => w
  | 1 => fj_add_meta w
  | 2 => prepare_workflow_if_required (fj_add_meta w)
  | 3 => submit_workflow_if_required (prepare_workflow_if_required (fj_add_meta w))
  | f + 4 =>
      run_resume (f + 1)
        (submit_workflow_if_required (prepare_workflow_if_required (fj_add_meta w)))

/-- Progress records reachable by running the orchestrator entry points
(`from_janis`, and `from_path` followed by `resume_if_possible`, which
touches no persistent state before the resume) any number of times, with
crashes at any step boundary, starting from an empty progress record. -/
inductive Reachable : World → Prop where
  | init (w : World) (h : w.progress = []) : Reachable w
  | janis (fuel : Nat) (w : World) (h : Reachable w) : Reachable (from_janis_run fuel w)
  | resume (fuel : Nat) (w : World) (h : Reachable w) : Reachable (run_resume fuel w)

/-- The metadata archive file path written by `save_metadata_if_required`. -/
def metadata_file_path (w : World) : String :=
  task_path w ++ "metadata/metadata.json"

/-- The step-ordering / effect-coupling invariant of reachable progress
records: completed flags respect the orchestration order (`copiedOutputs`
implies `savedMetadata` implies `workflowMovedToFinalState` implies
`submitWorkflow` implies `saveWorkflow`), and a flag is only ever set in a
state where its side effect has happened: at least one engine start for
`submitWorkflow`, at least one translation for `saveWorkflow`, the metadata
archive file on disk for `savedMetadata`, a terminal engine status observed
for `workflowMovedToFinalState`, and at least one outputs fetch for
`copiedOutputs`. -/
def world_inv (w : World) : Prop :=
  (progress_has_completed w ProgressKeys.copiedOutputs = true →
    progress_has_completed w ProgressKeys.submitWorkflow = true ∧
    progress_has_completed w ProgressKeys.workflowMovedToFinalState = true)
  ∧ (progress_has_completed w ProgressKeys.copiedOutputs = true →
      progress_has_completed w ProgressKeys.savedMetadata = true)
  ∧ (progress_has_completed w ProgressKeys.savedMetadata = true →
      progress_has_completed w ProgressKeys.workflowMovedToFinalState = true)
  ∧ (progress_has_completed w ProgressKeys.workflowMovedToFinalState = true →
      progress_has_completed w ProgressKeys.submitWorkflow = true)
  ∧ (progress_has_completed w ProgressKeys.submitWorkflow = true →
      progress_has_completed w ProgressKeys.saveWorkflow = true)
  ∧ (progress_has_completed w ProgressKeys.submitWorkflow = true → 1 ≤ w.startCount)
  ∧ (progress_has_completed w ProgressKeys.saveWorkflow = true → 1 ≤ w.translateCount)
  ∧ (progress_has_completed w ProgressKeys.savedMetadata = true →
      w.files.any (fun p => p.1 = metadata_file_path w) = true)
  ∧ (progress_has_completed w ProgressKeys.workflowMovedToFinalState = true →
      TaskStatus.final_states.contains w.engineStatus = true)
  ∧ (progress_has_completed w ProgressKeys.copiedOutputs = true → 1 ≤ w.fetchCount)

/-! ## The Shell engine (janis_assistant/engines/shell/main.py)

`Shell.terminate_task` calls `stop_engine` (a no-op returning `self`),
unconditionally overwrites `taskmeta["status"]` with ABORTED, and returns
ABORTED — regardless of any terminal status already stored. -/

structure ShellEngine where
  taskmeta_status : Option TaskStatus
  deriving DecidableEq, Repr

/-- Embeds `Shell.terminate_task`, returning the updated engine and the returned status. -/
def terminate_task (s : ShellEngine) : ShellEngine × TaskStatus :=
  ({ s with taskmeta_status := some TaskStatus.aborted }, TaskStatus.aborted)

/-! ## The local-process log watcher (ShellLogger.run)

The stdout loop reads lines, appends every line to the durable log file
object (buffered), and flushes/fsyncs whenever more than 5 seconds have
passed since the last flush.  It exits via `break` on an empty read once
`process.poll()` is non-None, so the input below is exactly the sequence of
timestamped lines read before that terminating read.  The stderr drain runs
strictly after the stdout loop, hence after the process has terminated
(`poll()` returns the exit code): an empty stderr line therefore always
takes the `break`, ending the drain; a non-empty line is scanned for the
case-insensitive keywords without short-circuiting the loop.  Afterwards the
failed path flushes/fsyncs explicitly, `self.terminate()` runs, and the exit
callback fires with FAILED when a keyword was seen and COMPLETED otherwise. -/

def error_keywords : List String := ["error", "fail", "exception"]

/-- One non-empty stderr line flags the run when any keyword occurs in its
lowercase form (`for keyword in self.error_keywords: if keyword in line.lower()`). -/
def line_has_error_keyword (line : String) : Bool :=
  error_keywords.any (fun kw => pyContains (pyLower line) kw)

/-- The stderr drain of `ShellLogger.run`, returning `has_error`.  The drain
stops at the first empty line (the process has already terminated, so
`poll()` is non-None and the `break` fires) and at end of stream. -/
def drain_stderr : List String → Bool :=
  go false
where
  go (has_error : Bool) : List String → Bool
    | [] => has_error
    | line :: rest =>
      if line = "" then has_error
      else go (has_error || line_has_error_keyword line) rest

/-- The durable log file: lines written to the (buffered) file object, lines
already flushed/fsynced to disk, and the time of the last flush
(`self.last_write`, initialised at watcher construction). -/
structure LogFile where
  buffered : List String
  durable : List String
  last_write : Int
  deriving DecidableEq, Repr

/-- Embeds `logfp.flush(); os.fsync(...)` — the buffer reaches disk. -/
def log_flush (st : LogFile) : LogFile :=
  { st with durable := st.durable ++ st.buffered, buffered := [] }

/-- The body of the stdout loop for one read `(t, line)`:
`should_write = (now - last_write) > 5; logfp.write(line + "\n");
if should_write: last_write = now; flush; fsync`.  The speculative JSON
parse of the line only replaces `self.outputs` and affects nothing here. -/
def process_stdout_line (st : LogFile) (t : Int) (line : String) : LogFile :=
  let should_write := 5 < t - st.last_write
  let st := { st with buffered := st.buffered ++ [line] }
  if should_write then { (log_flush st) with last_write := t } else st

/-- The whole stdout loop over the timestamped lines read before the
terminating empty read. -/
def process_stdout (st : LogFile) : List (Int × String) → LogFile
  | [] => st
  | (t, line) :: rest => process_stdout (process_stdout_line st t line) rest

structure ShellRunOut where
  log : LogFile
  status : TaskStatus
  exit_fired : Bool
  deriving DecidableEq, Repr

/-- Embeds `ProcessLogger.terminate`.  Modelled from the spec: the `ProcessLogger`
base class (janis_assistant.utils) is not in the repository snapshot; the
spec fixes its behaviour at stream end — "Only after both streams are fully
drained does the component compute final status ... flush/fsync the log, and
fire the exit callback exactly once with that status" — so `terminate`
flushes and fsyncs the durable log before the exit callback runs. -/
def process_logger_terminate (st : LogFile) : LogFile :=
  log_flush st

/-- Embeds `ShellLogger.run` on a synthetic transcript: drain stdout (logging),
drain stderr (keyword scan), flush on the failed path, `self.terminate()`,
then fire the exit callback with the final status. -/
def shell_logger_run (t0 : Int) (stdout_reads : List (Int × String))
    (stderr_lines : List String) : ShellRunOut :=
  let st := process_stdout { buffered := [], durable := [], last_write := t0 } stdout_reads
  let has_error := drain_stderr stderr_lines
  let st := if has_error then log_flush st else st
  let st := process_logger_terminate st
  { log := st
    status := if has_error then TaskStatus.failed else TaskStatus.completed
    exit_fired := true }

/-! ## Helper projections and store lemmas -/

theorem has_mem (w : World) (k : ProgressKeys) :
    progress_has_completed w k = true ↔ k ∈ w.progress := by
  simp [progress_has_completed, List.elem_iff]

theorem has_mark (w : World) (k' k : ProgressKeys) :
    progress_has_completed (progress_mark_completed w k') k = true
      ↔ k = k' ∨ progress_has_completed w k = true := by
  simp [has_mem, progress_mark_completed, List.mem_cons]

theorem mark_progress (w : World) (k : ProgressKeys) :
    (progress_mark_completed w k).progress = k :: w.progress := rfl

/-! ## Per-step characterization lemmas -/

theorem fj_add_meta_eq (w : World) :
    fj_add_meta w = { w with info :=
      (InfoKeys.environment, InfoVal.str w.envId)
        :: (InfoKeys.engineId, InfoVal.str w.engineId)
        :: (InfoKeys.validating, InfoVal.bool w.validatingReq)
        :: (InfoKeys.status, InfoVal.status TaskStatus.processing)
        :: (InfoKeys.taskId, InfoVal.str w.tid) :: w.info } := rfl

theorem prepare_skip (w : World)
    (h : progress_has_completed w ProgressKeys.saveWorkflow = true) :
    prepare_workflow_if_required w = w := by
  simp [prepare_workflow_if_required, h]

theorem prepare_go (w : World)
    (h : progress_has_completed w ProgressKeys.saveWorkflow = false) :
    prepare_workflow_if_required w =
      progress_mark_completed
        { w with translateCount := w.translateCount + (if w.validatingReq then 2 else 1) }
        ProgressKeys.saveWorkflow := by
  simp only [prepare_workflow_if_required, h, Bool.false_eq_true, if_false]
  cases hv : w.validatingReq <;> simp [hv]

theorem submit_skip (w : World)
    (h : progress_has_completed w ProgressKeys.submitWorkflow = true) :
    submit_workflow_if_required w = w := by
  simp [submit_workflow_if_required, h]

theorem submit_go (w : World)
    (h : progress_has_completed w ProgressKeys.submitWorkflow = false) :
    submit_workflow_if_required w =
      progress_mark_completed
        { w with startCount := w.startCount + 1,
                 info := (InfoKeys.engine_tid, InfoVal.str w.engineTid) :: w.info }
        ProgressKeys.submitWorkflow := by
  simp [submit_workflow_if_required, h, add_meta_info]

theorem wait_skip (w : World)
    (h : progress_has_completed w ProgressKeys.workflowMovedToFinalState = true) :
    wait_if_required w = StepOut.ok { w with metaFetches := w.metaFetches + 1 } := by
  simp [wait_if_required, h]

theorem wait_go_final (w : World)
    (h : progress_has_completed w ProgressKeys.workflowMovedToFinalState = false)
    (hs : TaskStatus.final_states.contains w.engineStatus = true) :
    wait_if_required w =
      StepOut.ok (progress_mark_completed { w with metaFetches := w.metaFetches + 1 }
        ProgressKeys.workflowMovedToFinalState) := by
  simp only [wait_if_required, h, hs, Bool.false_eq_true, if_false, if_true]

theorem wait_go_hang (w : World)
    (h : progress_has_completed w ProgressKeys.workflowMovedToFinalState = false)
    (hs : TaskStatus.final_states.contains w.engineStatus = false) :
    wait_if_required w = StepOut.hung { w with metaFetches := w.metaFetches + 1 } := by
  simp only [wait_if_required, h, hs, Bool.false_eq_true, if_false]

theorem save_skip (w : World)
    (h : progress_has_completed w ProgressKeys.savedMetadata = true) :
    save_metadata_if_required w = StepOut.ok w := by
  simp [save_metadata_if_required, h]

theorem save_cromwell (w : World)
    (h : progress_has_completed w ProgressKeys.savedMetadata = false)
    (hc : w.engineIsCromwell = true) :
    save_metadata_if_required w =
      StepOut.ok (progress_mark_completed
        { w with files := w.files ++ [(metadata_file_path w, w.rawMeta)] }
        ProgressKeys.savedMetadata) := by
  simp [save_metadata_if_required, h, hc, metadata_file_path]

theorem save_raise (w : World)
    (h : progress_has_completed w ProgressKeys.savedMetadata = false)
    (hc : w.engineIsCromwell = false) :
    save_metadata_if_required w =
      StepOut.raised w ("Dont know how to save metadata for engine " ++ w.engineId) := by
  simp [save_metadata_if_required, h, hc]

theorem copy_skip (w : World)
    (h : progress_has_completed w ProgressKeys.copiedOutputs = true) :
    copy_outputs_if_required w = StepOut.ok w := by
  simp [copy_outputs_if_required, h]

theorem copy_empty (w : World)
    (h : progress_has_completed w ProgressKeys.copiedOutputs = false)
    (he : w.engineOutputs.isEmpty = true) :
    copy_outputs_if_required w = StepOut.ok { w with fetchCount := w.fetchCount + 1 } := by
  simp [copy_outputs_if_required, h, he]

theorem copy_go_ok (w : World) (cs : List (String × String))
    (h : progress_has_completed w ProgressKeys.copiedOutputs = false)
    (he : w.engineOutputs.isEmpty = false)
    (hr : route_outputs (is_validating_info w) (task_path w ++ "outputs/")
        (task_path w ++ "validation/") w.engineOutputs = (cs, none)) :
    copy_outputs_if_required w =
      StepOut.ok (progress_mark_completed
        { w with fetchCount := w.fetchCount + 1, copies := w.copies ++ cs }
        ProgressKeys.copiedOutputs) := by
  simp only [copy_outputs_if_required, h, he, Bool.false_eq_true, if_false, hr]

theorem copy_go_raise (w : World) (cs : List (String × String)) (msg : String)
    (h : progress_has_completed w ProgressKeys.copiedOutputs = false)
    (he : w.engineOutputs.isEmpty = false)
    (hr : route_outputs (is_validating_info w) (task_path w ++ "outputs/")
        (task_path w ++ "validation/") w.engineOutputs = (cs, some msg)) :
    copy_outputs_if_required w =
      StepOut.raised { w with fetchCount := w.fetchCount + 1, copies := w.copies ++ cs }
        msg := by
  simp only [copy_outputs_if_required, h, he, Bool.false_eq_true, if_false, hr]

/-! ## Monotonicity and frame lemmas for the orchestrator steps -/

theorem prepare_mono (w : World) (k : ProgressKeys)
    (h : progress_has_completed w k = true) :
    progress_has_completed (prepare_workflow_if_required w) k = true := by
  cases hg : progress_has_completed w ProgressKeys.saveWorkflow with
  | true => rw [prepare_skip w hg]; exact h
  | false => rw [prepare_go w hg, has_mark]; exact Or.inr h

theorem prepare_sets (w : World) :
    progress_has_completed (prepare_workflow_if_required w) ProgressKeys.saveWorkflow = true := by
  cases hg : progress_has_completed w ProgressKeys.saveWorkflow with
  | true => rw [prepare_skip w hg]; exact hg
  | false => rw [prepare_go w hg, has_mark]; exact Or.inl rfl

theorem prepare_startCount (w : World) :
    (prepare_workflow_if_required w).startCount = w.startCount := by
  cases hg : progress_has_completed w ProgressKeys.saveWorkflow with
  | true => rw [prepare_skip w hg]
  | false => rw [prepare_go w hg]; rfl

theorem submit_mono (w : World) (k : ProgressKeys)
    (h : progress_has_completed w k = true) :
    progress_has_completed (submit_workflow_if_required w) k = true := by
  cases hg : progress_has_completed w ProgressKeys.submitWorkflow with
  | true => rw [submit_skip w hg]; exact h
  | false => rw [submit_go w hg, has_mark]; exact Or.inr h

theorem submit_sets (w : World) :
    progress_has_completed (submit_workflow_if_required w) ProgressKeys.submitWorkflow
      = true := by
  cases hg : progress_has_completed w ProgressKeys.submitWorkflow with
  | true => rw [submit_skip w hg]; exact hg
  | false => rw [submit_go w hg, has_mark]; exact Or.inl rfl

theorem wait_mono (w : World) (k : ProgressKeys)
    (h : progress_has_completed w k = true) :
    progress_has_completed ((wait_if_required w).world) k = true := by
  cases hg : progress_has_completed w ProgressKeys.workflowMovedToFinalState with
  | true => rw [wait_skip w hg]; exact h
  | false =>
    cases hs : TaskStatus.final_states.contains w.engineStatus with
    | true => rw [wait_go_final w hg hs]; exact (has_mark _ _ _).mpr (Or.inr h)
    | false => rw [wait_go_hang w hg hs]; exact h

theorem wait_startCount (w : World) :
    ((wait_if_required w).world).startCount = w.startCount := by
  cases hg : progress_has_completed w ProgressKeys.workflowMovedToFinalState with
  | true => rw [wait_skip w hg]; rfl
  | false =>
    cases hs : TaskStatus.final_states.contains w.engineStatus with
    | true => rw [wait_go_final w hg hs]; rfl
    | false => rw [wait_go_hang w hg hs]; rfl

theorem save_mono (w : World) (k : ProgressKeys)
    (h : progress_has_completed w k = true) :
    progress_has_completed ((save_metadata_if_required w).world) k = true := by
  cases hg : progress_has_completed w ProgressKeys.savedMetadata with
  | true => rw [save_skip w hg]; exact h
  | false =>
    cases hc : w.engineIsCromwell with
    | true => rw [save_cromwell w hg hc]; exact (has_mark _ _ _).mpr (Or.inr h)
    | false => rw [save_raise w hg hc]; exact h

theorem save_startCount (w : World) :
    ((save_metadata_if_required w).world).startCount = w.startCount := by
  cases hg : progress_has_completed w ProgressKeys.savedMetadata with
  | true => rw [save_skip w hg]; rfl
  | false =>
    cases hc : w.engineIsCromwell with
    | true => rw [save_cromwell w hg hc]; rfl
    | false => rw [save_raise w hg hc]; rfl

theorem copy_mono (w : World) (k : ProgressKeys)
    (h : progress_has_completed w k = true) :
    progress_has_completed ((copy_outputs_if_required w).world) k = true := by
  cases hg : progress_has_completed w ProgressKeys.copiedOutputs with
  | true => rw [copy_skip w hg]; exact h
  | false =>
    cases he : w.engineOutputs.isEmpty with
    | true => rw [copy_empty w hg he]; exact h
    | false =>
      rcases hr : route_outputs (is_validating_info w) (task_path w ++ "outputs/")
          (task_path w ++ "validation/") w.engineOutputs with ⟨cs, msg⟩
      cases msg with
      | some m => rw [copy_go_raise w cs m hg he hr]; exact h
      | none => rw [copy_go_ok w cs hg he hr]; exact (has_mark _ _ _).mpr (Or.inr h)

theorem copy_startCount (w : World) :
    ((copy_outputs_if_required w).world).startCount = w.startCount := by
  cases hg : progress_has_completed w ProgressKeys.copiedOutputs with
  | true => rw [copy_skip w hg]; rfl
  | false =>
    cases he : w.engineOutputs.isEmpty with
    | true => rw [copy_empty w hg he]; rfl
    | false =>
      rcases hr : route_outputs (is_validating_info w) (task_path w ++ "outputs/")
          (task_path w ++ "validation/") w.engineOutputs with ⟨cs, msg⟩
      cases msg with
      | some m => rw [copy_go_raise w cs m hg he hr]; rfl
      | none => rw [copy_go_ok w cs hg he hr]; rfl

/-! ## Invariant preservation, step by step -/

theorem world_inv_empty (w : World) (h : w.progress = []) : world_inv w := by
  have hf : ∀ k, progress_has_completed w k = false := by
    intro k; simp [progress_has_completed, h]
  simp [world_inv, hf]

theorem inv_fj (w : World) (h : world_inv w) : world_inv (fj_add_meta w) := h

theorem inv_prepare (w : World) (h : world_inv w) :
    world_inv (prepare_workflow_if_required w) := by
  cases hg : progress_has_completed w ProgressKeys.saveWorkflow with
  | true => rw [prepare_skip w hg]; exact h
  | false =>
    rw [prepare_go w hg]
    obtain ⟨i1, i2, i3, i4, i5, i6, i7, i8, i9, i10⟩ := h
    refine ⟨?_, ?_, ?_, ?_, ?_, ?_, ?_, ?_, ?_, ?_⟩ <;>
      simp only [has_mark] <;> intro ha
    · rcases ha with h' | h'
      · exact absurd h' (by decide)
      · exact ⟨Or.inr (i1 h').1, Or.inr (i1 h').2⟩
    · rcases ha with h' | h'
      · exact absurd h' (by decide)
      · exact Or.inr (i2 h')
    · rcases ha with h' | h'
      · exact absurd h' (by decide)
      · exact Or.inr (i3 h')
    · rcases ha with h' | h'
      · exact absurd h' (by decide)
      · exact Or.inr (i4 h')
    · exact Or.inl trivial
    · rcases ha with h' | h'
      · exact absurd h' (by decide)
      · exact i6 h'
    · show 1 ≤ w.translateCount + (if w.validatingReq then 2 else 1)
      split <;> omega
    · rcases ha with h' | h'
      · exact absurd h' (by decide)
      · exact i8 h'
    · rcases ha with h' | h'
      · exact absurd h' (by decide)
      · exact i9 h'
    · rcases ha with h' | h'
      · exact absurd h' (by decide)
      · exact i10 h'

theorem inv_submit (w : World)
    (hpre : progress_has_completed w ProgressKeys.saveWorkflow = true)
    (h : world_inv w) : world_inv (submit_workflow_if_required w) := by
  cases hg : progress_has_completed w ProgressKeys.submitWorkflow with
  | true => rw [submit_skip w hg]; exact h
  | false =>
    rw [submit_go w hg]
    obtain ⟨i1, i2, i3, i4, i5, i6, i7, i8, i9, i10⟩ := h
    refine ⟨?_, ?_, ?_, ?_, ?_, ?_, ?_, ?_, ?_, ?_⟩ <;>
      simp only [has_mark] <;> intro ha
    · rcases ha with h' | h'
      · exact absurd h' (by decide)
      · exact ⟨Or.inr (i1 h').1, Or.inr (i1 h').2⟩
    · rcases ha with h' | h'
      · exact absurd h' (by decide)
      · exact Or.inr (i2 h')
    · rcases ha with h' | h'
      · exact absurd h' (by decide)
      · exact Or.inr (i3 h')
    · exact Or.inl trivial
    · exact Or.inr hpre
    · show 1 ≤ w.startCount + 1
      omega
    · rcases ha with h' | h'
      · exact absurd h' (by decide)
      · exact i7 h'
    · rcases ha with h' | h'
      · exact absurd h' (by decide)
      · exact i8 h'
    · rcases ha with h' | h'
      · exact absurd h' (by decide)
      · exact i9 h'
    · rcases ha with h' | h'
      · exact absurd h' (by decide)
      · exact i10 h'

theorem inv_wait (w : World)
    (hguard : progress_has_completed w ProgressKeys.submitWorkflow = true)
    (h : world_inv w) :
    world_inv ((wait_if_required w).world)
    ∧ ((wait_if_required w).isOk = true →
        progress_has_completed ((wait_if_required w).world)
          ProgressKeys.workflowMovedToFinalState = true) := by
  cases hg : progress_has_completed w ProgressKeys.workflowMovedToFinalState with
  | true =>
    rw [wait_skip w hg]
    exact ⟨h, fun _ => hg⟩
  | false =>
    cases hs : TaskStatus.final_states.contains w.engineStatus with
    | false =>
      rw [wait_go_hang w hg hs]
      refine ⟨h, fun hk => ?_⟩
      simp [StepOut.isOk] at hk
    | true =>
      rw [wait_go_final w hg hs]
      obtain ⟨i1, i2, i3, i4, i5, i6, i7, i8, i9, i10⟩ := h
      refine ⟨⟨?_, ?_, ?_, ?_, ?_, ?_, ?_, ?_, ?_, ?_⟩, ?_⟩
      all_goals simp only [StepOut.world, StepOut.isOk, has_mark]
      · intro ha
        rcases ha with h' | h'
        · exact absurd h' (by decide)
        · exact ⟨Or.inr (i1 h').1, Or.inr (i1 h').2⟩
      · intro ha
        rcases ha with h' | h'
        · exact absurd h' (by decide)
        · exact Or.inr (i2 h')
      · intro ha
        exact Or.inl trivial
      · intro ha
        exact Or.inr hguard
      · intro ha
        rcases ha with h' | h'
        · exact absurd h' (by decide)
        · exact Or.inr (i5 h')
      · intro ha
        rcases ha with h' | h'
        · exact absurd h' (by decide)
        · exact i6 h'
      · intro ha
        rcases ha with h' | h'
        · exact absurd h' (by decide)
        · exact i7 h'
      · intro ha
        rcases ha with h' | h'
        · exact absurd h' (by decide)
        · exact i8 h'
      · intro ha
        exact hs
      · intro ha
        rcases ha with h' | h'
        · exact absurd h' (by decide)
        · exact i10 h'
      · intro hk
        exact Or.inl trivial

theorem inv_save (w : World)
    (hsub : progress_has_completed w ProgressKeys.submitWorkflow = true)
    (hmoved : progress_has_completed w ProgressKeys.workflowMovedToFinalState = true)
    (h : world_inv w) :
    world_inv ((save_metadata_if_required w).world)
    ∧ ((save_metadata_if_required w).isOk = true →
        progress_has_completed ((save_metadata_if_required w).world)
          ProgressKeys.savedMetadata = true) := by
  cases hg : progress_has_completed w ProgressKeys.savedMetadata with
  | true =>
    rw [save_skip w hg]
    exact ⟨h, fun _ => hg⟩
  | false =>
    cases hc : w.engineIsCromwell with
    | false =>
      rw [save_raise w hg hc]
      refine ⟨h, fun hk => ?_⟩
      simp [StepOut.isOk] at hk
    | true =>
      rw [save_cromwell w hg hc]
      obtain ⟨i1, i2, i3, i4, i5, i6, i7, i8, i9, i10⟩ := h
      refine ⟨⟨?_, ?_, ?_, ?_, ?_, ?_, ?_, ?_, ?_, ?_⟩, ?_⟩
      all_goals simp only [StepOut.world, StepOut.isOk, has_mark]
      · intro ha
        rcases ha with h' | h'
        · exact absurd h' (by decide)
        · exact ⟨Or.inr (i1 h').1, Or.inr (i1 h').2⟩
      · intro ha
        exact Or.inl trivial
      · intro ha
        exact Or.inr hmoved
      · intro ha
        exact Or.inr hsub
      · intro ha
        rcases ha with h' | h'
        · exact absurd h' (by decide)
        · exact Or.inr (i5 h')
      · intro ha
        rcases ha with h' | h'
        · exact absurd h' (by decide)
        · exact i6 h'
      · intro ha
        rcases ha with h' | h'
        · exact absurd h' (by decide)
        · exact i7 h'
      · intro ha
        have hp : metadata_file_path
            (progress_mark_completed
              { w with files := w.files ++ [(metadata_file_path w, w.rawMeta)] }
              ProgressKeys.savedMetadata) = metadata_file_path w := rfl
        show (w.files ++ [(metadata_file_path w, w.rawMeta)]).any
          (fun p => p.1 = metadata_file_path
            (progress_mark_completed
              { w with files := w.files ++ [(metadata_file_path w, w.rawMeta)] }
              ProgressKeys.savedMetadata)) = true
        rw [hp]
        simp [List.any_append]
      · intro ha
        rcases ha with h' | h'
        · exact absurd h' (by decide)
        · exact i9 h'
      · intro ha
        rcases ha with h' | h'
        · exact absurd h' (by decide)
        · exact i10 h'
      · intro hk
        exact Or.inl trivial

theorem inv_copy (w : World)
    (hsub : progress_has_completed w ProgressKeys.submitWorkflow = true)
    (hmoved : progress_has_completed w ProgressKeys.workflowMovedToFinalState = true)
    (hmeta : progress_has_completed w ProgressKeys.savedMetadata = true)
    (h : world_inv w) :
    world_inv ((copy_outputs_if_required w).world) := by
  cases hg : progress_has_completed w ProgressKeys.copiedOutputs with
  | true => rw [copy_skip w hg]; exact h
  | false =>
    obtain ⟨i1, i2, i3, i4, i5, i6, i7, i8, i9, i10⟩ := h
    cases he : w.engineOutputs.isEmpty with
    | true =>
      rw [copy_empty w hg he]
      exact ⟨i1, i2, i3, i4, i5, i6, i7, i8, i9,
        fun ha => Nat.le_succ_of_le (i10 ha)⟩
    | false =>
      rcases hr : route_outputs (is_validating_info w) (task_path w ++ "outputs/")
          (task_path w ++ "validation/") w.engineOutputs with ⟨cs, msg⟩
      cases msg with
      | some m =>
        rw [copy_go_raise w cs m hg he hr]
        exact ⟨i1, i2, i3, i4, i5, i6, i7, i8, i9,
          fun ha => Nat.le_succ_of_le (i10 ha)⟩
      | none =>
        rw [copy_go_ok w cs hg he hr]
        refine ⟨?_, ?_, ?_, ?_, ?_, ?_, ?_, ?_, ?_, ?_⟩
        all_goals simp only [StepOut.world, has_mark]
        · intro ha
          exact ⟨Or.inr hsub, Or.inr hmoved⟩
        · intro ha
          exact Or.inr hmeta
        · intro ha
          rcases ha with h' | h'
          · exact absurd h' (by decide)
          · exact Or.inr (i3 h')
        · intro ha
          rcases ha with h' | h'
          · exact absurd h' (by decide)
          · exact Or.inr (i4 h')
        · intro ha
          rcases ha with h' | h'
          · exact absurd h' (by decide)
          · exact Or.inr (i5 h')
        · intro ha
          rcases ha with h' | h'
          · exact absurd h' (by decide)
          · exact i6 h'
        · intro ha
          rcases ha with h' | h'
          · exact absurd h' (by decide)
          · exact i7 h'
        · intro ha
          rcases ha with h' | h'
          · exact absurd h' (by decide)
          · exact i8 h'
        · intro ha
          rcases ha with h' | h'
          · exact absurd h' (by decide)
          · exact i9 h'
        · intro ha
          show 1 ≤ w.fetchCount + 1
          omega

/-! ## Run-level lemmas -/

theorem inv_resume_after_save (g : Nat) (w2 : World)
    (hsub : progress_has_completed w2 ProgressKeys.submitWorkflow = true)
    (hmoved : progress_has_completed w2 ProgressKeys.workflowMovedToFinalState = true)
    (hmeta : progress_has_completed w2 ProgressKeys.savedMetadata = true)
    (h : world_inv w2) : world_inv (resume_after_save g w2) := by
  cases g with
  | zero => exact h
  | succ _ => exact inv_copy w2 hsub hmoved hmeta h

theorem inv_resume_after_wait (f : Nat) (w1 : World)
    (hsub : progress_has_completed w1 ProgressKeys.submitWorkflow = true)
    (hmoved : progress_has_completed w1 ProgressKeys.workflowMovedToFinalState = true)
    (h : world_inv w1) : world_inv (resume_after_wait f w1) := by
  cases f with
  | zero => exact h
  | succ g =>
    have hs := inv_save w1 hsub hmoved h
    have hsm := save_mono w1 ProgressKeys.submitWorkflow hsub
    have hsm2 := save_mono w1 ProgressKeys.workflowMovedToFinalState hmoved
    rw [resume_after_wait]
    cases hout : save_metadata_if_required w1 with
    | raised w2 m => rw [hout] at hs; exact hs.1
    | hung w2 => rw [hout] at hs; exact hs.1
    | ok w2 =>
      rw [hout] at hs hsm hsm2
      exact inv_resume_after_save g w2 hsm hsm2 (hs.2 rfl) hs.1

theorem inv_run_resume (f : Nat) (w : World) (h : world_inv w) :
    world_inv (run_resume f w) := by
  rw [run_resume.eq_def]
  cases hg : progress_has_completed w ProgressKeys.submitWorkflow with
  | false => simp only [hg, Bool.false_eq_true, if_false]; exact h
  | true =>
    simp only [hg, if_true]
    cases f with
    | zero => exact h
    | succ f =>
      have hw := inv_wait w hg h
      have hwm := wait_mono w ProgressKeys.submitWorkflow hg
      cases hout : wait_if_required w with
      | raised w1 m => rw [hout] at hw; exact hw.1
      | hung w1 => rw [hout] at hw; exact hw.1
      | ok w1 =>
        rw [hout] at hw hwm
        exact inv_resume_after_wait f w1 hwm (hw.2 rfl) hw.1

theorem resume_after_save_startCount (g : Nat) (w2 : World) :
    (resume_after_save g w2).startCount = w2.startCount := by
  cases g with
  | zero => rfl
  | succ _ => exact copy_startCount w2

theorem resume_after_wait_startCount (f : Nat) (w1 : World) :
    (resume_after_wait f w1).startCount = w1.startCount := by
  cases f with
  | zero => rfl
  | succ g =>
    have hs := save_startCount w1
    rw [resume_after_wait]
    cases hout : save_metadata_if_required w1 with
    | raised w2 m => rw [hout] at hs; exact hs
    | hung w2 => rw [hout] at hs; exact hs
    | ok w2 =>
      rw [hout] at hs
      rw [resume_after_save_startCount g w2]
      exact hs

theorem run_resume_startCount (f : Nat) (w : World) :
    (run_resume f w).startCount = w.startCount := by
  rw [run_resume.eq_def]
  cases hg : progress_has_completed w ProgressKeys.submitWorkflow with
  | false => simp only [hg, Bool.false_eq_true, if_false]
  | true =>
    simp only [hg, if_true]
    cases f with
    | zero => rfl
    | succ f =>
      have hw := wait_startCount w
      cases hout : wait_if_required w with
      | raised w1 m => rw [hout] at hw; exact hw
      | hung w1 => rw [hout] at hw; exact hw
      | ok w1 =>
        rw [hout] at hw
        rw [resume_after_wait_startCount f w1]
        exact hw

theorem resume_after_save_mono (g : Nat) (w2 : World) (k : ProgressKeys)
    (h : progress_has_completed w2 k = true) :
    progress_has_completed (resume_after_save g w2) k = true := by
  cases g with
  | zero => exact h
  | succ _ => exact copy_mono w2 k h

theorem resume_after_wait_mono (f : Nat) (w1 : World) (k : ProgressKeys)
    (h : progress_has_completed w1 k = true) :
    progress_has_completed (resume_after_wait f w1) k = true := by
  cases f with
  | zero => exact h
  | succ g =>
    have hs := save_mono w1 k h
    rw [resume_after_wait]
    cases hout : save_metadata_if_required w1 with
    | raised w2 m => rw [hout] at hs; exact hs
    | hung w2 => rw [hout] at hs; exact hs
    | ok w2 =>
      rw [hout] at hs
      exact resume_after_save_mono g w2 k hs

theorem run_resume_mono (f : Nat) (w : World) (k : ProgressKeys)
    (h : progress_has_completed w k = true) :
    progress_has_completed (run_resume f w) k = true := by
  rw [run_resume.eq_def]
  cases hg : progress_has_completed w ProgressKeys.submitWorkflow with
  | false => simp only [hg, Bool.false_eq_true, if_false]; exact h
  | true =>
    simp only [hg, if_true]
    cases f with
    | zero => exact h
    | succ f =>
      have hw := wait_mono w k h
      cases hout : wait_if_required w with
      | raised w1 m => rw [hout] at hw; exact hw
      | hung w1 => rw [hout] at hw; exact hw
      | ok w1 =>
        rw [hout] at hw
        exact resume_after_wait_mono f w1 k hw

theorem inv_from_janis (fuel : Nat) (w : World) (h : world_inv w) :
    world_inv (from_janis_run fuel w) := by
  match fuel with
  | 0 => exact h
  | 1 => exact inv_fj w h
  | 2 => exact inv_prepare _ (inv_fj w h)
  | 3 =>
    exact inv_submit _ (prepare_sets _) (inv_prepare _ (inv_fj w h))
  | f + 4 =>
    exact inv_run_resume _ _
      (inv_submit _ (prepare_sets _) (inv_prepare _ (inv_fj w h)))

theorem reachable_inv (w : World) (h : Reachable w) : world_inv w := by
  induction h with
  | init w hp => exact world_inv_empty w hp
  | janis fuel w _ ih => exact inv_from_janis fuel w ih
  | resume fuel w _ ih => exact inv_run_resume fuel w ih

/-! ## Additional step lemmas for the idempotent-resume claim -/

theorem prepare_new (w : World) (k : ProgressKeys)
    (h : progress_has_completed (prepare_workflow_if_required w) k = true) :
    k = ProgressKeys.saveWorkflow ∨ progress_has_completed w k = true := by
  cases hg : progress_has_completed w ProgressKeys.saveWorkflow with
  | true => rw [prepare_skip w hg] at h; exact Or.inr h
  | false => rw [prepare_go w hg, has_mark] at h; exact h

theorem janis_start_submitted (w : World)
    (h : progress_has_completed w ProgressKeys.submitWorkflow = true) :
    (from_janis_run 6 w).startCount = w.startCount := by
  show (run_resume 3 (submit_workflow_if_required
    (prepare_workflow_if_required (fj_add_meta w)))).startCount = w.startCount
  rw [run_resume_startCount]
  have hf : progress_has_completed (fj_add_meta w) ProgressKeys.submitWorkflow = true := h
  have hp1 := prepare_mono (fj_add_meta w) ProgressKeys.submitWorkflow hf
  rw [submit_skip _ hp1, prepare_startCount]
  rfl

theorem janis_start_fresh (w : World)
    (h : progress_has_completed w ProgressKeys.submitWorkflow = false) :
    (from_janis_run 6 w).startCount = w.startCount + 1 := by
  show (run_resume 3 (submit_workflow_if_required
    (prepare_workflow_if_required (fj_add_meta w)))).startCount = w.startCount + 1
  rw [run_resume_startCount]
  have hns : progress_has_completed (prepare_workflow_if_required (fj_add_meta w))
      ProgressKeys.submitWorkflow = false := by
    cases hq : progress_has_completed (prepare_workflow_if_required (fj_add_meta w))
        ProgressKeys.submitWorkflow with
    | false => rfl
    | true =>
      rcases prepare_new (fj_add_meta w) ProgressKeys.submitWorkflow hq with h' | h'
      · exact absurd h' (by decide)
      · have h'' : progress_has_completed w ProgressKeys.submitWorkflow = true := h'
        rw [h] at h''
        exact absurd h'' (by simp)
  rw [submit_go _ hns]
  show (prepare_workflow_if_required (fj_add_meta w)).startCount + 1 = w.startCount + 1
  rw [prepare_startCount]
  rfl

/-! ## Claim theorems -/

/-- A concrete fresh task world (empty progress record, Cromwell engine in a
terminal state with one scalar output), used to instantiate the universally
quantified claim theorems. -/
def w_init : World :=
  { progress := [], info := [], startCount := 0, translateCount := 0,
    fetchCount := 0, metaFetches := 0, files := [], copies := [],
    path := "/out", tid := "t1", engineTid := "engine-1", engineId := "cromwell",
    envId := "local", engineIsCromwell := true, engineStatus := TaskStatus.completed,
    engineOutputs := [("x", OutputValue.str "/tmp/a.vcf")], rawMeta := "rawmeta",
    validatingReq := false }

/-- C1: running the full prepare → submit → await → save-metadata →
copy-outputs sequence twice against the same output root (empty progress
record, zero prior engine starts) invokes the engine start operation exactly
once; `submit_workflow_if_required` is the identity once `submitWorkflow` is
completed, and when it is not completed it performs exactly one engine start
and marks `submitWorkflow` afterwards. -/
theorem C1_submit_exactly_once (w : World)
    (hp : w.progress = []) (hs : w.startCount = 0) :
    (from_janis_run 6 (from_janis_run 6 w)).startCount = 1
    ∧ progress_has_completed (from_janis_run 6 w) ProgressKeys.submitWorkflow = true
    ∧ (∀ v : World, progress_has_completed v ProgressKeys.submitWorkflow = true →
        submit_workflow_if_required v = v)
    ∧ (∀ v : World, progress_has_completed v ProgressKeys.submitWorkflow = false →
        (submit_workflow_if_required v).startCount = v.startCount + 1
        ∧ progress_has_completed (submit_workflow_if_required v)
            ProgressKeys.submitWorkflow = true) := by
  have hflag : progress_has_completed (from_janis_run 6 w)
      ProgressKeys.submitWorkflow = true := by
    show progress_has_completed (run_resume 3 (submit_workflow_if_required
      (prepare_workflow_if_required (fj_add_meta w)))) ProgressKeys.submitWorkflow = true
    exact run_resume_mono 3 _ ProgressKeys.submitWorkflow (submit_sets _)
  have hw0 : progress_has_completed w ProgressKeys.submitWorkflow = false := by
    simp [progress_has_completed, hp]
  have hfirst : (from_janis_run 6 w).startCount = 1 := by
    rw [janis_start_fresh w hw0, hs]
  refine ⟨?_, hflag, fun v hv => submit_skip v hv, fun v hv =>
    ⟨by rw [submit_go v hv]; rfl, submit_sets v⟩⟩
  rw [janis_start_submitted (from_janis_run 6 w) hflag, hfirst]

theorem C1_submit_exactly_once_witness :
    (from_janis_run 6 (from_janis_run 6 w_init)).startCount = 1
    ∧ progress_has_completed (from_janis_run 6 w_init)
        ProgressKeys.submitWorkflow = true :=
  ⟨(C1_submit_exactly_once w_init rfl rfl).1,
   (C1_submit_exactly_once w_init rfl rfl).2.1⟩

/-- C2: every Progress Record reachable by running the orchestrator entry
points from an empty record satisfies the step-ordering invariant: in
particular `copiedOutputs` completed implies `submitWorkflow` and
`workflowMovedToFinalState` completed; the completed flags form a chain in
the orchestration order, and each flag is only ever set in a state where the
corresponding side effect has already succeeded (engine start performed,
terminal engine status observed, metadata archive written, outputs fetched). -/
theorem C2_step_ordering_invariant (w : World) (h : Reachable w) : world_inv w :=
  reachable_inv w h

theorem C2_step_ordering_invariant_witness :
    world_inv (from_janis_run 6 w_init) :=
  C2_step_ordering_invariant (from_janis_run 6 w_init)
    (Reachable.janis 6 w_init (Reachable.init w_init rfl))

/-! ## Log watcher lemmas -/

/-- The stderr lines the drain actually scans: everything strictly before
the first empty line (the process has already exited when the stderr drain
runs, so an empty read is indistinguishable from end of stream and takes
the `break`). -/
def scanned_stderr (lines : List String) : List String :=
  lines.takeWhile (fun l => !(l == ""))

theorem drain_stderr_go_eq (lines : List String) : ∀ b : Bool,
    drain_stderr.go b lines
      = (b || (scanned_stderr lines).any line_has_error_keyword) := by
  induction lines with
  | nil => intro b; simp [drain_stderr.go, scanned_stderr]
  | cons l rest ih =>
    intro b
    by_cases hl : l = ""
    · subst hl; simp [drain_stderr.go, scanned_stderr]
    · simp [drain_stderr.go, hl, ih, scanned_stderr, List.takeWhile_cons, Bool.or_assoc]

theorem drain_stderr_eq (lines : List String) :
    drain_stderr lines = (scanned_stderr lines).any line_has_error_keyword := by
  show drain_stderr.go false lines = _
  rw [drain_stderr_go_eq]
  simp

theorem process_stdout_line_content (st : LogFile) (t : Int) (line : String) :
    (process_stdout_line st t line).durable ++ (process_stdout_line st t line).buffered
      = st.durable ++ st.buffered ++ [line] := by
  simp only [process_stdout_line, log_flush]
  split <;> simp

theorem process_stdout_content (reads : List (Int × String)) : ∀ st : LogFile,
    (process_stdout st reads).durable ++ (process_stdout st reads).buffered
      = st.durable ++ st.buffered ++ reads.map Prod.snd := by
  induction reads with
  | nil => intro st; simp [process_stdout]
  | cons p rest ih =>
    intro st
    obtain ⟨t, line⟩ := p
    calc (process_stdout (process_stdout_line st t line) rest).durable
          ++ (process_stdout (process_stdout_line st t line) rest).buffered
        = (process_stdout_line st t line).durable
          ++ (process_stdout_line st t line).buffered ++ rest.map Prod.snd := ih _
      _ = st.durable ++ st.buffered ++ [line] ++ rest.map Prod.snd := by
          rw [process_stdout_line_content]
      _ = st.durable ++ st.buffered ++ ((t, line) :: rest).map Prod.snd := by
          simp

/-- C3 (counterexample to the claim as stated): for the synthetic transcript
with stderr lines `["", "error"]` the watcher reports COMPLETED even though a
standard-error line contains the keyword "error": the blank line is read
after the process has exited, so the drain breaks there and never scans the
keyword line. -/
theorem C3_status_counterexample :
    ¬ (((shell_logger_run 0 [] ["", "error"]).status = TaskStatus.failed)
        ↔ (["", "error"].any line_has_error_keyword = true)) ∧
    (shell_logger_run 0 [] ["", "error"]).status = TaskStatus.completed ∧
    line_has_error_keyword "error" = true := by decide

/-- C3 (amended): the final status is *failed* if and only if some
standard-error line strictly before the first blank line contains one of the
keywords "error", "fail", "exception" case-insensitively (within that scanned
region a match does not short-circuit the drain), and *completed* otherwise,
regardless of standard-output content; a blank stderr line ends the drain
because the process has already exited when stderr is drained. -/
theorem C3_amended_status_derivation (t0 : Int) (stdout_reads : List (Int × String))
    (stderr_lines : List String) :
    (shell_logger_run t0 stdout_reads stderr_lines).status = TaskStatus.failed
      ↔ (scanned_stderr stderr_lines).any line_has_error_keyword = true := by
  show (if drain_stderr stderr_lines then TaskStatus.failed else TaskStatus.completed)
      = TaskStatus.failed ↔ _
  rw [drain_stderr_eq]
  cases hany : (scanned_stderr stderr_lines).any line_has_error_keyword <;> simp

/-- C6: when the exit callback fires (in both the completed and the failed
outcome), every line the watcher read from standard output — including a
last line read less than the 5-second flush interval after the previous
flush — is in the durable (flushed and fsynced) log, with nothing left in
the write buffer. -/
theorem C6_log_durability (t0 : Int) (stdout_reads : List (Int × String))
    (stderr_lines : List String) :
    (shell_logger_run t0 stdout_reads stderr_lines).log.durable
        = stdout_reads.map Prod.snd
    ∧ (shell_logger_run t0 stdout_reads stderr_lines).log.buffered = []
    ∧ (shell_logger_run t0 stdout_reads stderr_lines).exit_fired = true := by
  have hc := process_stdout_content stdout_reads
    { buffered := [], durable := [], last_write := t0 }
  simp only [List.append_nil, List.nil_append] at hc
  unfold shell_logger_run process_logger_terminate
  cases hd : drain_stderr stderr_lines <;>
    simp [hd, log_flush, ← List.append_assoc, hc]

/-- A concrete run hitting the C6 edge case: the only stdout line arrives 1
second after watcher construction (well inside the 5-second flush interval),
so it is still unflushed when the streams end; it is nevertheless durable
when the exit callback fires. -/
theorem C6_log_durability_edge_example :
    (shell_logger_run 0 [(1, "last line")] []).log.durable = ["last line"]
    ∧ (process_stdout { buffered := [], durable := [], last_write := 0 }
        [(1, "last line")]).durable = [] := by decide

/-! ## C5: terminate on an already-terminal task -/

/-- A Shell engine whose task has already reached the terminal state
*completed*. -/
def shell_completed : ShellEngine := { taskmeta_status := some TaskStatus.completed }

/-- C5 (counterexample to the claim as stated): terminating a Shell task
whose stored status is already *completed* is not a no-op returning the
existing terminal status: it returns ABORTED and regresses the stored status
to ABORTED. -/
theorem C5_terminate_counterexample :
    ¬ ((terminate_task shell_completed).2 = TaskStatus.completed
        ∧ (terminate_task shell_completed).1 = shell_completed)
    ∧ (terminate_task shell_completed).2 = TaskStatus.aborted
    ∧ (terminate_task shell_completed).1.taskmeta_status
        = some TaskStatus.aborted := by decide

/-- C5 (amended): `Shell.terminate_task` unconditionally stores and returns
*aborted*, for every prior stored status, terminal or not (the second arm of
the behaviour the spec leaves open in its section 9). -/
theorem C5_amended_terminate_always_aborts (s : ShellEngine) :
    terminate_task s
      = ({ s with taskmeta_status := some TaskStatus.aborted }, TaskStatus.aborted) := rfl

/-! ## C10: copy_logs_if_required is a no-op -/

/-- C10: `copy_logs_if_required` never copies a log file and never marks
`savedLogs`: its guard is inverted relative to the other step methods, so
with `savedLogs` not completed it returns immediately (state unchanged), and
with `savedLogs` completed it only fetches metadata and discards it; in both
cases the progress record, the recorded copies and the written files are
unchanged. -/
theorem C10_copy_logs_noop (w : World) :
    (copy_logs_if_required w).progress = w.progress
    ∧ (copy_logs_if_required w).copies = w.copies
    ∧ (copy_logs_if_required w).files = w.files
    ∧ progress_has_completed (copy_logs_if_required w) ProgressKeys.savedLogs
        = progress_has_completed w ProgressKeys.savedLogs
    ∧ (progress_has_completed w ProgressKeys.savedLogs = false →
        copy_logs_if_required w = w) := by
  unfold copy_logs_if_required
  cases hg : progress_has_completed w ProgressKeys.savedLogs with
  | false => simp [hg]
  | true => simp [hg]; exact hg

theorem C10_copy_logs_noop_witness :
    (copy_logs_if_required w_init).progress = w_init.progress
    ∧ copy_logs_if_required w_init = w_init :=
  ⟨(C10_copy_logs_noop w_init).1,
   (C10_copy_logs_noop w_init).2.2.2.2 (by decide)⟩

/-! ## C4: output staging routes by shape -/

theorem copy_sharded_from_strs (d f : String) (ss : List String) : ∀ n : Nat,
    copy_sharded_from d f n (ss.map OutputValue.str)
      = (List.enumFrom n ss).flatMap
          (fun p => copy_scalar d (f ++ "-shard-" ++ toString p.1) p.2) := by
  induction ss with
  | nil => intro n; simp [copy_sharded_from, List.enumFrom]
  | cons s rest ih =>
    intro n
    simp [copy_sharded_from, copy_output, List.enumFrom, ih]

/-- A concrete validating task: all steps up to save-metadata completed, one
scalar output named `validated_x`, the stored `validating` info flag true. -/
def w_validating : World :=
  { progress := [ProgressKeys.saveWorkflow, ProgressKeys.submitWorkflow,
      ProgressKeys.workflowMovedToFinalState, ProgressKeys.savedMetadata],
    info := [(InfoKeys.validating, InfoVal.bool true)],
    startCount := 1, translateCount := 2, fetchCount := 0, metaFetches := 1,
    files := [], copies := [], path := "/out", tid := "t1", engineTid := "engine-1",
    engineId := "cromwell", envId := "local", engineIsCromwell := true,
    engineStatus := TaskStatus.completed,
    engineOutputs := [("validated_x", OutputValue.str "/tmp/v.txt")],
    rawMeta := "rawmeta", validatingReq := true }

/-- C4: output staging routes each named output by shape: a scalar location
is copied under the output name with the source extension appended
(`/tmp/a.vcf` lands at `outputs/x.vcf`); a sequence is copied element-wise
with 0-based `-shard-<index>` suffixes (shown concretely and for every list
of scalar locations); and for a validating task an output whose name
component after the last dot starts with `validated_` is routed to the
validation directory. -/
theorem C4_output_staging_routes_by_shape :
    copy_output "outputs/" "x" (OutputValue.str "/tmp/a.vcf")
      = [("/tmp/a.vcf", "outputs/x.vcf")]
    ∧ copy_output "outputs/" "x"
        (OutputValue.arr [OutputValue.str "/tmp/a.txt", OutputValue.str "/tmp/b.txt"])
      = [("/tmp/a.txt", "outputs/x-shard-0.txt"), ("/tmp/b.txt", "outputs/x-shard-1.txt")]
    ∧ (∀ d f : String, ∀ ss : List String,
        copy_output d f (OutputValue.arr (ss.map OutputValue.str))
          = (List.enumFrom 0 ss).flatMap
              (fun p => copy_scalar d (f ++ "-shard-" ++ toString p.1) p.2))
    ∧ (copy_outputs_if_required w_validating).isOk = true
    ∧ (copy_outputs_if_required w_validating).world.copies
        = [("/tmp/v.txt", "/out/validation/validated_x.txt")]
    ∧ progress_has_completed (copy_outputs_if_required w_validating).world
        ProgressKeys.copiedOutputs = true := by
  refine ⟨by decide, by decide, ?_, by decide, by decide, by decide⟩
  intro d f ss
  exact copy_sharded_from_strs d f ss 0

/-! ## C7: empty outputs mapping skips the copiedOutputs mark -/

/-- Variant of `w_init` after the first three steps, but with the engine reporting an
empty outputs mapping. -/
def w_empty_outputs : World :=
  { w_init with
    progress := [ProgressKeys.saveWorkflow, ProgressKeys.submitWorkflow,
      ProgressKeys.workflowMovedToFinalState, ProgressKeys.savedMetadata],
    engineOutputs := [] }

/-- C7 (counterexample to the claim as stated): with `copiedOutputs` not yet
completed and the engine returning an empty outputs mapping,
`copy_outputs_if_required` returns without raising and `copiedOutputs` is
still NOT marked completed (`if not outputs: return` precedes the mark). -/
theorem C7_empty_outputs_counterexample :
    progress_has_completed w_empty_outputs ProgressKeys.copiedOutputs = false
    ∧ (copy_outputs_if_required w_empty_outputs).isOk = true
    ∧ (copy_outputs_if_required w_empty_outputs).isRaised = false
    ∧ progress_has_completed (copy_outputs_if_required w_empty_outputs).world
        ProgressKeys.copiedOutputs = false := by decide

/-- C7 (amended): whenever `copy_outputs_if_required` returns without
raising, the step was not previously completed AND the fetched outputs
mapping is non-empty, the `copiedOutputs` step is marked completed
afterwards; with an empty mapping the method returns early without marking. -/
theorem C7_amended_copy_marks_when_nonempty (w w2 : World)
    (hg : progress_has_completed w ProgressKeys.copiedOutputs = false)
    (hne : w.engineOutputs.isEmpty = false)
    (hok : copy_outputs_if_required w = StepOut.ok w2) :
    progress_has_completed w2 ProgressKeys.copiedOutputs = true := by
  rcases hr : route_outputs (is_validating_info w) (task_path w ++ "outputs/")
      (task_path w ++ "validation/") w.engineOutputs with ⟨cs, msg⟩
  cases msg with
  | some m =>
    rw [copy_go_raise w cs m hg hne hr] at hok
    exact absurd hok (by simp)
  | none =>
    rw [copy_go_ok w cs hg hne hr] at hok
    injection hok with h2
    rw [← h2]
    exact (has_mark _ _ _).mpr (Or.inl rfl)

theorem C7_amended_copy_marks_witness :
    progress_has_completed ((copy_outputs_if_required w_validating).world)
      ProgressKeys.copiedOutputs = true :=
  C7_amended_copy_marks_when_nonempty w_validating
    ((copy_outputs_if_required w_validating).world) (by decide) (by decide) rfl

/-! ## C8: metadata archival -/

/-- A non-Cromwell (local shell) engine world with metadata not yet saved. -/
def w_shell : World :=
  { w_init with engineIsCromwell := false, engineId := "shell" }

/-- C8: with `savedMetadata` not completed, a non-Cromwell engine makes
`save_metadata_if_required` raise an exception whose message names the
engine, leaving `savedMetadata` unmarked; a Cromwell engine has the raw
metadata dump written to `metadata/metadata.json` under the task path in the
very state in which `savedMetadata` is marked. -/
theorem C8_save_metadata_archival (w : World)
    (h : progress_has_completed w ProgressKeys.savedMetadata = false) :
    (w.engineIsCromwell = false →
        save_metadata_if_required w
          = StepOut.raised w ("Dont know how to save metadata for engine " ++ w.engineId)
        ∧ progress_has_completed ((save_metadata_if_required w).world)
            ProgressKeys.savedMetadata = false)
    ∧ (w.engineIsCromwell = true →
        save_metadata_if_required w
          = StepOut.ok (progress_mark_completed
              { w with files := w.files ++ [(metadata_file_path w, w.rawMeta)] }
              ProgressKeys.savedMetadata)
        ∧ ((save_metadata_if_required w).world).files.any
            (fun p => p.1 = metadata_file_path w) = true
        ∧ progress_has_completed ((save_metadata_if_required w).world)
            ProgressKeys.savedMetadata = true) := by
  constructor
  · intro hc
    refine ⟨save_raise w h hc, ?_⟩
    rw [save_raise w h hc]
    exact h
  · intro hc
    refine ⟨save_cromwell w h hc, ?_, ?_⟩
    · rw [save_cromwell w h hc]
      show ((w.files ++ [(metadata_file_path w, w.rawMeta)]).any
        (fun p => p.1 = metadata_file_path w)) = true
      simp [List.any_append]
    · rw [save_cromwell w h hc]
      exact (has_mark _ _ _).mpr (Or.inl rfl)

theorem C8_save_metadata_archival_witness :
    progress_has_completed ((save_metadata_if_required w_shell).world)
        ProgressKeys.savedMetadata = false
    ∧ ((save_metadata_if_required w_init).world).files.any
        (fun p => p.1 = metadata_file_path w_init) = true :=
  ⟨((C8_save_metadata_archival w_shell (by decide)).1 (by decide)).2,
   ((C8_save_metadata_archival w_init (by decide)).2 (by decide)).2.1⟩

/-! ## C9: unrecognized output shapes -/

/-- A terminal task whose single output is a sharded sequence containing one
element of unrecognized shape. -/
def w_nested_bad : World :=
  { w_init with
    progress := [ProgressKeys.saveWorkflow, ProgressKeys.submitWorkflow,
      ProgressKeys.workflowMovedToFinalState, ProgressKeys.savedMetadata],
    engineOutputs := [("x", OutputValue.arr [OutputValue.other "NoneType"])] }

/-- A terminal task whose single output has an unrecognized top-level shape. -/
def w_toplevel_bad : World :=
  { w_init with
    progress := [ProgressKeys.saveWorkflow, ProgressKeys.submitWorkflow,
      ProgressKeys.workflowMovedToFinalState, ProgressKeys.savedMetadata],
    engineOutputs := [("x", OutputValue.other "dict")] }

/-- C9 (counterexample to the claim as stated): an unrecognized value nested
inside a sharded sequence does NOT raise: staging silently skips it
(`copy_output` has no else branch), performs no copy for it, completes
normally, and `copiedOutputs` IS marked completed. -/
theorem C9_nested_shape_counterexample :
    (copy_outputs_if_required w_nested_bad).isRaised = false
    ∧ (copy_outputs_if_required w_nested_bad).isOk = true
    ∧ progress_has_completed (copy_outputs_if_required w_nested_bad).world
        ProgressKeys.copiedOutputs = true
    ∧ (copy_outputs_if_required w_nested_bad).world.copies = [] := by decide

/-- C9 (amended): only a TOP-LEVEL output value of unrecognized shape raises
a fatal error; the message names the value type but not the output name, and
`copiedOutputs` is left unmarked.  An unrecognized element nested inside a
sharded sequence is silently skipped: it produces no copy and staging
continues with the remaining shards. -/
theorem C9_amended_unrecognized_shapes (w : World) (outname ty : String)
    (rest : List (String × OutputValue))
    (hg : progress_has_completed w ProgressKeys.copiedOutputs = false)
    (ho : w.engineOutputs = (outname, OutputValue.other ty) :: rest) :
    copy_outputs_if_required w
      = StepOut.raised { w with fetchCount := w.fetchCount + 1 }
          ("Dont know how to handle output with type: " ++ ty)
    ∧ progress_has_completed ((copy_outputs_if_required w).world)
        ProgressKeys.copiedOutputs = false
    ∧ (∀ d f : String, copy_output d f (OutputValue.other ty) = [])
    ∧ (∀ d f : String, ∀ n : Nat, ∀ vs : List OutputValue,
        copy_sharded_from d f n (OutputValue.other ty :: vs)
          = copy_sharded_from d f (n + 1) vs) := by
  have hne : w.engineOutputs.isEmpty = false := by rw [ho]; rfl
  have hr : route_outputs (is_validating_info w) (task_path w ++ "outputs/")
      (task_path w ++ "validation/") w.engineOutputs
      = ([], some ("Dont know how to handle output with type: " ++ ty)) := by
    rw [ho]
    rfl
  refine ⟨?_, ?_, fun d f => rfl, fun d f n vs => ?_⟩
  · rw [copy_go_raise w [] _ hg hne hr]
    simp
  · rw [copy_go_raise w [] _ hg hne hr]
    exact hg
  · simp [copy_sharded_from, copy_output]

theorem C9_amended_unrecognized_witness :
    progress_has_completed ((copy_outputs_if_required w_toplevel_bad).world)
      ProgressKeys.copiedOutputs = false
    ∧ copy_output "outputs/" "x" (OutputValue.other "dict") = [] :=
  ⟨(C9_amended_unrecognized_shapes w_toplevel_bad "x" "dict" [] (by decide) rfl).2.1,
   (C9_amended_unrecognized_shapes w_toplevel_bad "x" "dict" [] (by decide) rfl).2.2.1
     "outputs/" "x"⟩
